import Mathlib

/-
Verification development for the data-driven object substrate: the structured
text Reader (Reader.cpp), the DataModule preset store (System/DataModule.h) and
the Matrix value type (Matrix.h). Streams are modelled as the list of not yet
consumed characters; C++ int counters are modelled as Int; a fatal RTEAbort
raised through Reader::ReportError is modelled as an Except.error value.
-/

namespace RTE

/-- A fatal load abort raised through `Reader::ReportError`: the diagnostic
text together with the originating file path (`m_FilePath`) and the current
line (`m_CurrentLine`) that `ReportError` formats into its message. -/
structure ReadError where
  desc : String
  path : String
  line : Int
deriving Repr, DecidableEq

/-- One saved frame of `Reader::m_StreamStack` (the C++ `StreamInfo`): the
parent stream, its path, its line counter and its previous-indent counter. -/
structure StreamInfo where
  stream : List Char
  filePath : String
  currentLine : Int
  previousIndent : Int
deriving Repr, DecidableEq

/-- The mutable state of a `Reader`. The include stack keeps its top at the
head of the list (the C++ pushes and pops at the back of a `plf::list`; only
the order convention differs). `files` models the file system seen by
`std::ifstream`: an association list from path to contents, where a missing
path is a file that fails to open. The progress-report callback and the
cosmetic `m_FileName` / `m_ReportTabs` fields are not modelled. -/
structure ReaderState where
  stream : List Char
  filePath : String
  currentLine : Int
  streamStack : List StreamInfo
  previousIndent : Int
  indentDifference : Int
  objectEndings : Int
  endOfStreams : Bool
  skipIncludes : Bool
  files : List (String × List Char)
deriving Repr, DecidableEq

/-- The byte 0xFF: with the `char`-typed `peek` of `DiscardEmptySpace`, the
comparison `peek == -1` on a non-exhausted stream matches exactly this byte. -/
def badChar : Char := Char.ofNat 255

/-- A character on which the skip loop of `Reader::DiscardEmptySpace` halts:
real content, neither whitespace nor a possible comment start nor the byte
that trips the `peek == -1` check. -/
def isContentChar (c : Char) : Bool :=
  c != ' ' && c != '\t' && c != '\n' && c != '\r' && c != '/' && c != badChar

/-- The `//` line-comment skip loop inside `Reader::DiscardEmptySpace`:
discard until a newline, a carriage return, or the end of the stream, leaving
the line terminator in the stream. -/
def lineCommentSkip (cs : List Char) : List Char :=
  cs.dropWhile (fun c => !(c == '\n' || c == '\r'))

/-- The `/* ... */` block-comment skip loop inside `Reader::DiscardEmptySpace`:
consume until a `*` directly followed by `/` (the final `/` is then also
discarded), or until the end of the stream; newline characters inside the
comment increment the line counter. -/
def blockSkip (line : Int) : List Char → Int × List Char
  | [] => (line, [])
  | c :: rest =>
    if c = '*' ∧ rest.head? = some '/' then (line, rest.tail)
    else blockSkip (if c = '\n' then line + 1 else line) rest

/-- How one run of the skip loop of `Reader::DiscardEmptySpace` ends on the
current stream. -/
inductive DiscardOutcome where
  | fatal (line : Int)
  | eofHit (line : Int)
  | halt (line : Int) (indent : Int) (ateLine : Bool) (rest : List Char)
deriving Repr, DecidableEq

/-- The `while (true)` skip loop of `Reader::DiscardEmptySpace` on a single
stream: spaces are discarded uncounted, each tab increments `indent`, a
newline increments the line counter while a carriage return does not (so that
lines are not counted twice for CRLF endings), and both reset `indent` to 0
and record that a line was eaten; `//` and `/* ... */` comments are discarded;
any other character halts the loop. Exhausting the stream yields `eofHit`
(the C++ returns `EndIncludeFile()` there, dropping the local `indent` and
`ateLine`); the byte matching `peek == -1` yields `fatal` (`ReportError`). -/
def discardCore (cs : List Char) (line indent : Int) (ateLine : Bool) : DiscardOutcome :=
  match cs with
  | [] => .eofHit line
  | c :: rest =>
    if c = badChar then .fatal line
    else if c = ' ' then discardCore rest line indent ateLine
    else if c = '\t' then discardCore rest line (indent + 1) ateLine
    else if c = '\n' then discardCore rest (line + 1) 0 true
    else if c = '\r' then discardCore rest line 0 true
    else if c = '/' then
      match rest with
      | '/' :: rest2 => discardCore (lineCommentSkip ('/' :: rest2)) line indent ateLine
      | '*' :: rest2 => discardCore (blockSkip line ('*' :: rest2)).2 (blockSkip line ('*' :: rest2)).1 indent ateLine
      | _ => .halt line indent ateLine (c :: rest)
    else .halt line indent ateLine (c :: rest)
termination_by cs.length
decreasing_by
  · simp
  · simp
  · simp
  · simp
  · simp only [List.length_cons]
    have h := (List.dropWhile_sublist (l := '/' :: rest2)
      (fun c => !(c == '\n' || c == '\r'))).length_le
    simp only [lineCommentSkip]
    simp only [List.length_cons] at h
    omega
  · have hb : ∀ (l : Int) (cs : List Char), (blockSkip l cs).2.length ≤ cs.length := by
      intro l cs
      induction cs generalizing l with
      | nil => simp [blockSkip]
      | cons d ds ih =>
        rw [blockSkip]
        by_cases hd : d = '*' ∧ ds.head? = some '/'
        · simp only [if_pos hd]
          have := List.length_tail ds
          simp only [List.length_cons]
          omega
        · simp only [if_neg hd]
          have := ih (if d = '\n' then l + 1 else l)
          simp only [List.length_cons]
          omega
    have h := hb line ('*' :: rest2)
    simp only [List.length_cons] at h ⊢
    omega

/-- The bookkeeping at the end of `Reader::DiscardEmptySpace`: only if at
least one line was eaten during this call does `m_IndentDifference` become
`indent - m_PreviousIndent` and `m_PreviousIndent` become `indent`; otherwise
both keep their prior values. -/
def finishDiscard (s : ReaderState) (indent : Int) (ateLine : Bool) : ReaderState :=
  if ateLine then
    { s with indentDifference := indent - s.previousIndent, previousIndent := indent }
  else s

mutual

/-- `Reader::DiscardEmptySpace`. Runs the skip loop on the current stream; on
end of stream it returns `EndIncludeFile()`; on real content it applies the
indentation bookkeeping and returns `true`. A `ReportError` is a fatal
`Except.error`. -/
def discardEmptySpace (s : ReaderState) : Except ReadError (Bool × ReaderState) :=
  match discardCore s.stream s.currentLine 0 false with
  | .fatal line =>
    .error ⟨"Something went wrong reading the line; make sure it is providing the expected type",
      s.filePath, line⟩
  | .eofHit line => endIncludeFile { s with stream := [], currentLine := line }
  | .halt line indent ateLine rest =>
    .ok (true, finishDiscard { s with stream := rest, currentLine := line } indent ateLine)
termination_by (s.streamStack.length, 1)

/-- `Reader::EndIncludeFile`. With an empty stack the whole read session is
marked permanently finished (`m_EndOfStreams`) and `false` is returned.
Otherwise the parent frame is restored — its stream, path and line replace the
current ones, while its saved previous indent is ADDED to (not substituted
for) `m_PreviousIndent` — the frame is popped, the resumed file is set up with
a `DiscardEmptySpace()` whose boolean result is ignored, and `true` is
returned. -/
def endIncludeFile (s : ReaderState) : Except ReadError (Bool × ReaderState) :=
  match h : s.streamStack with
  | [] => .ok (false, { s with endOfStreams := true })
  | f :: rest =>
    match discardEmptySpace
        { s with stream := f.stream, filePath := f.filePath, currentLine := f.currentLine,
                 previousIndent := s.previousIndent + f.previousIndent, streamStack := rest } with
    | .error e => .error e
    | .ok r => .ok (true, r.2)
termination_by (s.streamStack.length, 0)
decreasing_by simp [h]; omega

end

/-- `Reader::NextProperty`: report whether more properties remain in the
current scope. A failed `DiscardEmptySpace` or the permanent end flag gives
`false`; unconsumed dedent levels give `false` and bump `m_ObjectEndings`;
otherwise `m_ObjectEndings` resets to 0 and the answer is `true`. -/
def nextProperty (s : ReaderState) : Except ReadError (Bool × ReaderState) :=
  match discardEmptySpace s with
  | .error e => .error e
  | .ok (ok, s₁) =>
    if !ok || s₁.endOfStreams then
      .ok (false, s₁)
    else if s₁.objectEndings < -s₁.indentDifference then
      .ok (false, { s₁ with objectEndings := s₁.objectEndings + 1 })
    else
      .ok (true, { s₁ with objectEndings := 0 })

/-- Iterate `Reader::NextProperty`, collecting the booleans it returns. -/
def nextPropN : Nat → ReaderState → Except ReadError (List Bool × ReaderState)
  | 0, s => .ok ([], s)
  | n + 1, s =>
    match nextProperty s with
    | .error e => .error e
    | .ok (b, s₁) =>
      match nextPropN n s₁ with
      | .error e => .error e
      | .ok (bs, s₂) => .ok (b :: bs, s₂)

/-- `Reader::TrimString`: strip leading and trailing spaces (spaces only). -/
def trimString (cs : List Char) : List Char :=
  ((cs.dropWhile (fun c => c = ' ')).reverse.dropWhile (fun c => c = ' ')).reverse

/-- The collection loop of `std::string Reader::ReadLine()`: gather characters
until a newline, carriage return or tab (left in the stream), a `//` line
comment (whose first `/` is put back), or the end of the stream. -/
def readLineLoop (acc : List Char) : List Char → List Char × List Char
  | [] => (acc, [])
  | c :: rest =>
    if c = '\n' ∨ c = '\r' ∨ c = '\t' then (acc, c :: rest)
    else if c = '/' ∧ rest.head? = some '/' then (acc, c :: rest)
    else readLineLoop (acc ++ [c]) rest

/-- `std::string Reader::ReadLine()`: discard empty space (boolean result
ignored), then read the rest of the line. -/
def readLine (s : ReaderState) : Except ReadError (List Char × ReaderState) :=
  match discardEmptySpace s with
  | .error e => .error e
  | .ok (_, s₁) => .ok ((readLineLoop [] s₁.stream).1, { s₁ with stream := (readLineLoop [] s₁.stream).2 })

/-- The part of a line after its first `=`, if any: `find_first_of` and
`substr(begin + 1)` in `Reader::ReadPropValue`. -/
def afterEq : List Char → Option (List Char)
  | [] => none
  | c :: rest => if c = '=' then some rest else afterEq rest

/-- `Reader::ReadPropValue`: read the rest of the line, keep what follows the
first `=` (the whole line when there is none), trimmed of spaces. -/
def readPropValue (s : ReaderState) : Except ReadError (List Char × ReaderState) :=
  match readLine s with
  | .error e => .error e
  | .ok (fullLine, s₁) =>
    match afterEq fullLine with
    | some r => .ok (trimString r, s₁)
    | none => .ok (trimString fullLine, s₁)

/-- How the name-collection loop of `Reader::ReadPropName` ends on the
current stream. -/
inductive NameOutcome where
  | found (name : List Char) (rest : List Char)
  | malformed
  | eofReached (name : List Char)
deriving Repr, DecidableEq

/-- The name-collection loop of `Reader::ReadPropName` on a single stream:
gather characters up to a `=` (which is consumed); a newline, carriage return
or tab hit before the `=` is the malformed-property abort; exhausting the
stream ends the loop with what was collected so far. -/
def namePhaseCore (acc : List Char) : List Char → NameOutcome
  | [] => .eofReached acc
  | c :: rest =>
    if c = '=' then .found acc rest
    else if c = '\n' ∨ c = '\r' ∨ c = '\t' then .malformed
    else namePhaseCore (acc ++ [c]) rest

/-- The name-collection loop of `Reader::ReadPropName` with its effects on the
reader: the malformed case is the fatal `ReportError` (the C++ diagnostic
reads, verbatim up to an apostrophe, "Property name was not followed by a
value") carrying `m_FilePath` and `m_CurrentLine`; the end of the stream
triggers `EndIncludeFile()` (whose boolean result is ignored) and breaks out
with what was collected. -/
def namePhase (s : ReaderState) : Except ReadError (List Char × ReaderState) :=
  match namePhaseCore [] s.stream with
  | .found name rest => .ok (name, { s with stream := rest })
  | .malformed =>
    .error ⟨"Property name was not followed by a value", s.filePath, s.currentLine⟩
  | .eofReached name =>
    match endIncludeFile { s with stream := [] } with
    | .error e => .error e
    | .ok r => .ok (name, r.2)

/-- `Reader::StartIncludeFile`. The current frame is pushed carrying the
values of `m_FilePath`, `m_CurrentLine` and `m_PreviousIndent` at call time;
the pushed stream is the very object from which `ReadPropValue` then reads the
include path, so the frame is built here with the stream as it stands after
the value read. On success the line counter restarts at 1 and the
previous-indent counter at 0 for the included file, and any leading fluff of
the new file is discarded. On an open failure the parent frame is restored
(net effect: nothing stays pushed), a `DiscardEmptySpace()` lines the parent
up again and `false` is returned. Modelled from the spec: the definition of
`RTEAbort` is not among these sources, and the spec states that an
include-open failure is reported non-fatally while malformed input aborts the
load, so the open-failure report here does not raise. -/
def startIncludeFile (s : ReaderState) : Except ReadError (Bool × ReaderState) :=
  match readPropValue s with
  | .error e => .error e
  | .ok (valueChars, s₁) =>
    match s₁.files.lookup (String.mk valueChars) with
    | none =>
      match discardEmptySpace
          { s₁ with filePath := s.filePath, currentLine := s.currentLine,
                    previousIndent := s.previousIndent } with
      | .error e => .error e
      | .ok r => .ok (false, r.2)
    | some contents =>
      match discardEmptySpace
          { s₁ with
            streamStack :=
              ⟨s₁.stream, s.filePath, s.currentLine, s.previousIndent⟩ :: s₁.streamStack,
            stream := contents, filePath := String.mk valueChars,
            currentLine := 1, previousIndent := 0 } with
      | .error e => .error e
      | .ok r => .ok (true, r.2)

/-- `Reader::ReadPropName`. The self-recursion through the `IncludeFile`
handling is bounded by `fuel` (the C++ loops forever on a file that includes
itself); `.ok none` signals only that the bound ran out, never an answer of
the program. -/
def readPropName : Nat → ReaderState → Except ReadError (Option (String × ReaderState))
  | 0, _ => .ok none
  | fuel + 1, s =>
    match discardEmptySpace s with
    | .error e => .error e
    | .ok (_, s₁) =>
      match namePhase s₁ with
      | .error e => .error e
      | .ok (nameChars, s₂) =>
        if String.mk (trimString nameChars) = "IncludeFile" then
          if s₂.skipIncludes then
            match readPropValue s₂ with
            | .error e => .error e
            | .ok (_, s₃) =>
              match discardEmptySpace s₃ with
              | .error e => .error e
              | .ok (_, s₄) => readPropName fuel s₄
          else
            match startIncludeFile s₂ with
            | .error e => .error e
            | .ok (_, s₃) => readPropName fuel s₃
        else
          .ok (some (String.mk (trimString nameChars), s₂))

/-- Number of newline characters in a skipped run: how far one call of
`DiscardEmptySpace` advances `m_CurrentLine`. -/
def nlCount (cs : List Char) : Int := ((cs.filter (fun c => c = '\n')).length : Int)

/-- Whether a skipped run contains a line break, i.e. whether the call sets
its local `ateLine`. -/
def ateAny (cs : List Char) : Bool := cs.any (fun c => c = '\n' || c = '\r')

/-- The running tab count after skipping `cs` starting from `indent`: tabs
increment it, newlines and carriage returns reset it to 0, spaces leave it
alone. -/
def indentAfter (indent : Int) (cs : List Char) : Int :=
  cs.foldl (fun acc c => if c = '\t' then acc + 1 else if c = '\n' ∨ c = '\r' then 0 else acc)
    indent

/-- A whitespace character of the skip loop. -/
def isWsChar (c : Char) : Bool := c == ' ' || c == '\t' || c == '\n' || c == '\r'

/-- A character the name-collection loop of `ReadPropName` accumulates rather
than stopping on. -/
def nameOK (c : Char) : Bool := c != '=' && c != '\n' && c != '\r' && c != '\t'

/-- A plain identifier-like character: halts `DiscardEmptySpace`, is
accumulated by both the name loop and the line loop, is not trimmed and does
not look like a comment or a key-value separator. -/
def isPlainChar (c : Char) : Bool :=
  c != ' ' && c != '\t' && c != '\n' && c != '\r' && c != '/' && c != '=' && c != badChar

/-- `c_PaletteEntriesNumber` from `System/Constants.h`: the size of the
`m_MaterialMappings` array of a `DataModule`. -/
def c_PaletteEntriesNumber : Nat := 256

/-- `DataModule::GetMaterialMapping`: `return m_MaterialMappings[materialID];`
indexes the fixed array directly with no bounds check; this total embedding
returns `none` exactly on the indices that C++ array access would miss. -/
def getMaterialMapping (materialMappings : List Nat) (materialID : Int) : Option Nat :=
  if 0 ≤ materialID then materialMappings.get? materialID.toNat else none

/-- `std::list::unique()`: drop every element that equals its immediate
predecessor. -/
def listUnique : List String → List String
  | [] => []
  | [a] => [a]
  | a :: b :: rest =>
    if a = b then listUnique (a :: rest) else a :: listUnique (b :: rest)
termination_by l => l.length
decreasing_by all_goals simp

/-- `DataModule::RegisterGroup`: `m_GroupRegister.push_back(newGroup);
m_GroupRegister.sort(); m_GroupRegister.unique();`. -/
def registerGroup (groupRegister : List String) (newGroup : String) : List String :=
  listUnique ((groupRegister ++ [newGroup]).mergeSort (fun a b => decide (a ≤ b)))

/-- Modelled from the spec: the definition of `DataModule::AddEntityPreset`
lives in `DataModule.cpp`, which is not among these sources (only its
declaration and documentation in `System/DataModule.h` are). Per the spec, the
call computes the exact class name and preset name of the entity; if an entry
with the same name exists under a different exact class it always fails and
adds nothing, regardless of the overwrite flag; if an entry with that exact
class and name already exists, it is a no-op returning "not added" unless
`overwriteSame` is set, in which case the stored payload is replaced (the key
set is unchanged); otherwise a copy is inserted. The store is abstracted to
the list of (exact class name, preset name) keys of the type map: payloads,
provenance and ancestor indexing play no part in the accept/reject
decision. -/
def addEntityPreset (store : List (String × String)) (exactClass presetName : String)
    (overwriteSame : Bool) : Bool × List (String × String) :=
  if store.any (fun e => e.2 == presetName && e.1 != exactClass) then
    (false, store)
  else if store.contains (exactClass, presetName) then
    if overwriteSame then (true, store) else (false, store)
  else
    (true, store ++ [(exactClass, presetName)])

/-- `Matrix` (Matrix.h): the represented angle, the two mirror flags, the 2x2
element cache and its validity flag. The C++ float fields are modelled over
`ℚ`; the facts proved about this type concern only the zero-divisor guard and
which fields an operation writes, not rounding. -/
structure Matrix where
  rotation : ℚ
  flippedX : Bool
  flippedY : Bool
  elements : (ℚ × ℚ) × (ℚ × ℚ)
  elementsUpdated : Bool
deriving Repr, DecidableEq

/-- `Matrix::operator/=(const float &rhs)`: `if (rhs) { m_Rotation /= rhs;
m_ElementsUpdated = false; } return *this;` — the divide happens only under
the truthiness test of the divisor. -/
def matrixDivAssignFloat (m : Matrix) (rhs : ℚ) : Matrix :=
  if rhs ≠ 0 then { m with rotation := m.rotation / rhs, elementsUpdated := false } else m

/-- `operator/=(Matrix &lhs, const Matrix &rhs)`: `if (rhs.m_Rotation) {
lhs.m_Rotation /= rhs.m_Rotation; lhs.m_ElementsUpdated = false; } return
lhs;`. -/
def matrixDivAssignMatrix (lhs rhs : Matrix) : Matrix :=
  if rhs.rotation ≠ 0 then
    { lhs with rotation := lhs.rotation / rhs.rotation, elementsUpdated := false }
  else lhs

/-- A reader freshly set up on the given stream, as `Reader::Clear` plus
`Create` leave it: line 1, empty stack, all counters zero. -/
def plainReader (cs : List Char) : ReaderState :=
  ⟨cs, "Base.rte/Index.ini", 1, [], 0, 0, 0, false, false, []⟩

/-- A reader about to skip a lone carriage return: line 5, previous indent 2. -/
def crIn : ReaderState :=
  { plainReader ('\r' :: 'A' :: []) with currentLine := 5, previousIndent := 2 }

/-- What `DiscardEmptySpace` leaves behind on `crIn`: the carriage return is
consumed and the indent bookkeeping runs, but the line counter stays at 5. -/
def crOut : ReaderState :=
  { plainReader ('A' :: []) with currentLine := 5, indentDifference := -2, previousIndent := 0 }

/-- A reader positioned right after `IncludeFile=` whose parent line still
holds the include path, with the included file present. -/
def incStart : ReaderState :=
  { plainReader ("Other.ini".data ++ '\n' :: 'X' :: '=' :: '1' :: []) with
    files := [("Other.ini", 'B' :: '=' :: '2' :: [])] }

/-- `incStart` after `ReadPropValue` has consumed the include path. -/
def incMid : ReaderState :=
  { incStart with stream := '\n' :: 'X' :: '=' :: '1' :: [] }

/-- A reader at the end of an included stream, with one parent frame saved. -/
def incPopIn : ReaderState :=
  { plainReader [] with
    streamStack := (⟨'N' :: '=' :: '2' :: [], "Parent.rte/Index.ini", 7, 2⟩ : StreamInfo) :: [],
    previousIndent := 1 }

/-- A reader about to read an `IncludeFile` property naming a file that is not
in the file system, followed by an ordinary property of the parent file. -/
def failStart : ReaderState :=
  { plainReader ("IncludeFile=Missing.ini\nNext=5".data) with
    currentLine := 7
    previousIndent := 1 }

/-- Replacing the stream field by the value it already has is the identity. -/
theorem withStream_self (s : ReaderState) {cs : List Char} (h : s.stream = cs) :
    ({ s with stream := cs } : ReaderState) = s := by
  cases s
  cases h
  rfl

/-- Resetting a zero close counter is the identity. -/
theorem withEndings_self (s : ReaderState) (h : s.objectEndings = 0) :
    ({ s with objectEndings := 0 } : ReaderState) = s := by
  cases s
  cases h
  rfl

/-- The skip loop halts at once, consuming nothing, on a content character. -/
theorem discardCore_content {c : Char} (hc : isContentChar c = true)
    (rest : List Char) (line indent : Int) (ate : Bool) :
    discardCore (c :: rest) line indent ate = .halt line indent ate (c :: rest) := by
  simp only [isContentChar, Bool.and_eq_true, bne_iff_ne] at hc
  obtain ⟨⟨⟨⟨⟨h1, h2⟩, h3⟩, h4⟩, h5⟩, h6⟩ := hc
  rw [discardCore.eq_def]
  simp only []
  rw [if_neg h6, if_neg h1, if_neg h2, if_neg h3, if_neg h4, if_neg h5]

/-- Running the skip loop over a run of whitespace down to a content
character: spaces change nothing, tabs bump the indent, newlines bump the line
counter, newlines and carriage returns reset the indent and set `ateLine`. -/
theorem discardCore_ws (ws : List Char) (hws : ∀ x ∈ ws, isWsChar x = true)
    {c : Char} (hc : isContentChar c = true) (rest : List Char) :
    ∀ (line indent : Int) (ate : Bool),
      discardCore (ws ++ c :: rest) line indent ate =
        .halt (line + nlCount ws) (indentAfter indent ws) (ate || ateAny ws) (c :: rest) := by
  induction ws with
  | nil =>
    intro line indent ate
    rw [List.nil_append, discardCore_content hc]
    simp [nlCount, indentAfter, ateAny]
  | cons x ws ih =>
    intro line indent ate
    have hx : isWsChar x = true := hws x (by simp)
    have hws' : ∀ y ∈ ws, isWsChar y = true := fun y hy => hws y (by simp [hy])
    simp only [isWsChar, Bool.or_eq_true, beq_iff_eq] at hx
    rcases hx with ((h | h) | h) | h <;> subst h
    · rw [List.cons_append, discardCore.eq_def]
      simp only []
      rw [if_neg (by decide), if_pos (by decide), ih hws']
      congr 1 <;> simp [nlCount, indentAfter, ateAny]
    · rw [List.cons_append, discardCore.eq_def]
      simp only []
      rw [if_neg (by decide), if_neg (by decide), if_pos (by decide), ih hws']
      congr 1 <;> simp [nlCount, indentAfter, ateAny]
    · rw [List.cons_append, discardCore.eq_def]
      simp only []
      rw [if_neg (by decide), if_neg (by decide), if_neg (by decide), if_pos (by decide),
        ih hws']
      congr 1 <;> simp [nlCount, indentAfter, ateAny] <;> omega
    · rw [List.cons_append, discardCore.eq_def]
      simp only []
      rw [if_neg (by decide), if_neg (by decide), if_neg (by decide), if_neg (by decide),
        if_pos (by decide), ih hws']
      congr 1 <;> simp [nlCount, indentAfter, ateAny]

/-- `DiscardEmptySpace` over a whitespace run ending at content: it returns
`true`, consumes the run, advances the line counter by the newline count and
applies the indent bookkeeping. -/
theorem discardEmptySpace_ws {s : ReaderState} {ws : List Char} {c : Char} {rest : List Char}
    (hws : ∀ x ∈ ws, isWsChar x = true) (hc : isContentChar c = true)
    (hs : s.stream = ws ++ c :: rest) :
    discardEmptySpace s = .ok (true,
      finishDiscard { s with stream := c :: rest, currentLine := s.currentLine + nlCount ws }
        (indentAfter 0 ws) (ateAny ws)) := by
  rw [discardEmptySpace, hs, discardCore_ws ws hws hc]
  simp

/-- `DiscardEmptySpace` is the identity (returning `true`) when the stream
already starts with content. -/
theorem discardEmptySpace_content {s : ReaderState} {c : Char} {rest : List Char}
    (hc : isContentChar c = true) (hs : s.stream = c :: rest) :
    discardEmptySpace s = .ok (true, s) := by
  rw [@discardEmptySpace_ws s [] c rest (by simp) hc (by simpa using hs)]
  simp only [nlCount, List.filter_nil, List.length_nil, Int.Nat.cast_ofNat_Int, add_zero,
    indentAfter, List.foldl_nil, ateAny, List.any_nil, finishDiscard, if_neg]
  rw [if_neg (by simp)]
  rw [withStream_self s hs]

/-- `NextProperty` on a content-positioned stream: the close counter decides
everything. -/
theorem nextProperty_content {s : ReaderState} {c : Char} {rest : List Char}
    (hc : isContentChar c = true) (hs : s.stream = c :: rest)
    (heos : s.endOfStreams = false) :
    nextProperty s =
      if s.objectEndings < -s.indentDifference then
        .ok (false, { s with objectEndings := s.objectEndings + 1 })
      else .ok (true, { s with objectEndings := 0 }) := by
  rw [nextProperty, discardEmptySpace_content hc hs]
  simp [heos]

/-- The counting argument behind the multi-level dedent law: with `j` levels
still unreported out of a dedent of `N`, the next `j` calls report `false` and
the call after them reports `true` and resets the counter. -/
theorem nextPropN_dedent_aux (j : Nat) :
    ∀ (s : ReaderState) (N : Nat) (c : Char) (rest : List Char),
      s.stream = c :: rest → isContentChar c = true → s.endOfStreams = false →
      s.indentDifference = -(N : Int) → s.objectEndings = (N : Int) - (j : Int) → j ≤ N →
      nextPropN (j + 1) s =
        .ok (List.replicate j false ++ [true], { s with objectEndings := 0 }) := by
  induction j with
  | zero =>
    intro s N c rest hs hc heos hdiff hend hle
    rw [nextPropN, nextProperty_content hc hs heos, if_neg (by rw [hdiff, hend]; omega)]
    simp [nextPropN]
  | succ j ih =>
    intro s N c rest hs hc heos hdiff hend hle
    rw [nextPropN, nextProperty_content hc hs heos, if_pos (by rw [hdiff, hend]; omega)]
    simp only []
    rw [ih { s with objectEndings := s.objectEndings + 1 } N c rest (by simp [hs]) hc
      (by simp [heos]) (by simp [hdiff]) (by simp [hend]; omega) (by omega)]
    simp [List.replicate_succ]

/-- C1: when `DiscardEmptySpace` has observed a dedent of magnitude `N`
(`m_IndentDifference = -N`, close counter `m_ObjectEndings` at 0) and the
reader sits on real content, each of the next `N` calls to
`Reader::NextProperty` returns `false` while incrementing the close counter,
and the following call — same raw indent difference, counter now `N` —
returns `true` and resets the counter to 0, leaving the state exactly as it
started: exactly `N` consecutive scope-end reports before property reading
resumes. -/
theorem nextProperty_multilevel_dedent (s : ReaderState) (N : Nat) (c : Char)
    (rest : List Char) (hs : s.stream = c :: rest) (hc : isContentChar c = true)
    (heos : s.endOfStreams = false) (hdiff : s.indentDifference = -(N : Int))
    (hend : s.objectEndings = 0) :
    nextPropN (N + 1) s = .ok (List.replicate N false ++ [true], s) := by
  rw [nextPropN_dedent_aux N s N c rest hs hc heos hdiff (by rw [hend]; simp) (le_refl N)]
  rw [withEndings_self s hend]

/-- Witness for C1 at a concrete two-level dedent. -/
theorem nextProperty_multilevel_dedent_witness :
    nextPropN 3 { plainReader ('A' :: '=' :: '1' :: []) with indentDifference := -2 } =
      .ok (List.replicate 2 false ++ [true],
        { plainReader ('A' :: '=' :: '1' :: []) with indentDifference := -2 }) :=
  nextProperty_multilevel_dedent _ 2 'A' ('=' :: '1' :: []) rfl (by decide) rfl (by decide) rfl

/-- C5: reaching end-of-stream with an empty include stack sets the permanent
`m_EndOfStreams` flag and returns `false`; and from any such terminal state —
flag set, stream exhausted, no parent frame — every later call to
`Reader::NextProperty` returns `false` and leaves the state untouched (in
particular no read ever clears the flag), so property reading never
resumes. -/
theorem reader_terminal_end (s : ReaderState) (hstack : s.streamStack = [])
    (hstream : s.stream = []) :
    endIncludeFile s = .ok (false, { s with endOfStreams := true }) ∧
    (s.endOfStreams = true → ∀ n : Nat, nextPropN n s = .ok (List.replicate n false, s)) := by
  have hend : endIncludeFile s = .ok (false, { s with endOfStreams := true }) := by
    rw [endIncludeFile, hstack]
  refine ⟨hend, fun heos n => ?_⟩
  have hdis : discardEmptySpace s = .ok (false, s) := by
    rw [discardEmptySpace, hstream, discardCore]
    simp only []
    rw [withStream_self s hstream, hend]
    cases s
    cases heos
    rfl
  have hstep : nextProperty s = .ok (false, s) := by
    rw [nextProperty, hdis]
    rfl
  induction n with
  | zero => rfl
  | succ n ih =>
    rw [nextPropN, hstep]
    simp only []
    rw [ih, List.replicate_succ]

/-- Witness for C5 at a concrete exhausted reader. -/
theorem reader_terminal_end_witness :
    endIncludeFile { plainReader [] with endOfStreams := true } =
      .ok (false, { plainReader [] with endOfStreams := true }) ∧
    nextPropN 2 { plainReader [] with endOfStreams := true } =
      .ok (List.replicate 2 false, { plainReader [] with endOfStreams := true }) := by
  have h := reader_terminal_end { plainReader [] with endOfStreams := true } rfl rfl
  exact ⟨h.1, h.2 rfl 2⟩

/-- C7 (amended): each `DiscardEmptySpace` call discards spaces without
counting them, increments the running indent once per tab, resets the indent
and marks a line eaten for every newline or carriage return consumed, but
increments the line counter only for newlines — a carriage return does not
advance it (so CRLF endings are not counted twice); and, exactly when at least
one line was eaten during the call, it sets `m_IndentDifference` to
`indent - m_PreviousIndent` and stores `m_PreviousIndent := indent`, while
calls that eat no line leave both unchanged. -/
theorem discardEmptySpace_accounting (s : ReaderState) (ws : List Char) (c : Char)
    (rest : List Char) (hws : ∀ x ∈ ws, isWsChar x = true) (hc : isContentChar c = true)
    (hs : s.stream = ws ++ c :: rest) :
    discardEmptySpace s = .ok (true,
      if ateAny ws then
        { s with stream := c :: rest, currentLine := s.currentLine + nlCount ws,
                 indentDifference := indentAfter 0 ws - s.previousIndent,
                 previousIndent := indentAfter 0 ws }
      else { s with stream := c :: rest, currentLine := s.currentLine + nlCount ws }) := by
  rw [discardEmptySpace_ws hws hc hs]
  by_cases h : ateAny ws = true
  · simp [finishDiscard, h]
  · simp [finishDiscard, h]

/-- Witness for C7 (amended) on the run space-tab-newline-tab before `A`. -/
theorem discardEmptySpace_accounting_witness :
    discardEmptySpace
        { plainReader (' ' :: '\t' :: '\n' :: '\t' :: 'A' :: []) with previousIndent := 3 } =
      .ok (true,
        { plainReader ('A' :: []) with
          currentLine := 2
          indentDifference := -2
          previousIndent := 1 }) := by
  rw [discardEmptySpace_accounting _ (' ' :: '\t' :: '\n' :: '\t' :: []) 'A' []
    (by decide) (by decide) rfl]
  rfl

/-- Counterexample to C7 as stated: on `crIn` the call consumes the carriage
return (the stream shrinks to `A` and the indent bookkeeping runs), yet the
line counter stays at 5 instead of being incremented — only newlines advance
it, carriage returns do not. -/
theorem discard_cr_line_counterexample :
    discardEmptySpace crIn = .ok (true, crOut) ∧ crOut.currentLine ≠ crIn.currentLine + 1 := by
  constructor
  · rw [@discardEmptySpace_ws crIn ('\r' :: []) 'A' [] (by decide) (by decide) rfl]
    rfl
  · decide

/-- The name loop stops with the malformed signal when a line terminator comes
before any `=`. -/
theorem namePhaseCore_malformed (q : List Char) :
    ∀ (acc : List Char) (t : Char) (rest : List Char), (∀ x ∈ q, nameOK x = true) →
      (t = '\n' ∨ t = '\r' ∨ t = '\t') →
      namePhaseCore acc (q ++ t :: rest) = .malformed := by
  induction q with
  | nil =>
    intro acc t rest hq ht
    rw [List.nil_append, namePhaseCore]
    rcases ht with h | h | h <;> subst h <;> simp
  | cons x q ih =>
    intro acc t rest hq ht
    have hx : nameOK x = true := hq x (by simp)
    simp only [nameOK, Bool.and_eq_true, bne_iff_ne] at hx
    obtain ⟨⟨⟨h1, h2⟩, h3⟩, h4⟩ := hx
    rw [List.cons_append, namePhaseCore, if_neg h1, if_neg (by simp [h2, h3, h4])]
    exact ih (acc ++ [x]) t rest (fun y hy => hq y (by simp [hy])) ht

/-- The name loop collects exactly the characters before the `=`, which it
consumes. -/
theorem namePhaseCore_found (q : List Char) :
    ∀ (acc : List Char) (rest : List Char), (∀ x ∈ q, nameOK x = true) →
      namePhaseCore acc (q ++ '=' :: rest) = .found (acc ++ q) rest := by
  induction q with
  | nil =>
    intro acc rest hq
    rw [List.nil_append, namePhaseCore]
    simp
  | cons x q ih =>
    intro acc rest hq
    have hx : nameOK x = true := hq x (by simp)
    simp only [nameOK, Bool.and_eq_true, bne_iff_ne] at hx
    obtain ⟨⟨⟨h1, h2⟩, h3⟩, h4⟩ := hx
    rw [List.cons_append, namePhaseCore, if_neg h1, if_neg (by simp [h2, h3, h4])]
    rw [ih (acc ++ [x]) rest (fun y hy => hq y (by simp [hy]))]
    simp

/-- C6: whenever a line terminator (newline, carriage return or tab) is
reached before an `=` while reading a property name, `Reader::ReadPropName`
aborts the whole load fatally — it produces no name for the caller, only the
malformed-property diagnostic carrying the originating file path
(`m_FilePath`) and the current line number (`m_CurrentLine`). -/
theorem readPropName_malformed_fatal (fuel : Nat) (s : ReaderState) (c : Char)
    (q : List Char) (t : Char) (rest : List Char)
    (hs : s.stream = c :: (q ++ t :: rest)) (hc : isContentChar c = true)
    (hcq : nameOK c = true) (hq : ∀ x ∈ q, nameOK x = true)
    (ht : t = '\n' ∨ t = '\r' ∨ t = '\t') :
    readPropName (fuel + 1) s =
      .error ⟨"Property name was not followed by a value", s.filePath, s.currentLine⟩ := by
  rw [readPropName, discardEmptySpace_content hc hs]
  have hall : ∀ x ∈ c :: q, nameOK x = true := by
    intro x hx
    rcases List.mem_cons.mp hx with h | h
    · subst h; exact hcq
    · exact hq x h
  simp only []
  rw [namePhase.eq_def, hs, show c :: (q ++ t :: rest) = (c :: q) ++ t :: rest from rfl,
    namePhaseCore_malformed (c :: q) [] t rest hall ht]

/-- Witness for C6: a property name cut off by a newline aborts with the file
path and line of the reader. -/
theorem readPropName_malformed_fatal_witness :
    readPropName 1 { plainReader ('H' :: 'i' :: '\n' :: 'X' :: []) with currentLine := 9 } =
      .error ⟨"Property name was not followed by a value", "Base.rte/Index.ini", 9⟩ :=
  readPropName_malformed_fatal 0 _ 'H' ('i' :: []) '\n' ('X' :: []) rfl (by decide) (by decide)
    (by decide) (by decide)

/-- C4: starting an include pushes the frame — the parent stream together
with the path, line counter and previous-indent counter as they were at call
time — onto the include stack and resets the line counter to 1 and the
previous-indent counter to 0 for the included file; ending an include on
end-of-stream pops that frame, restores the parent stream, path and line, and
ADDS (does not replace) the parent frame's saved previous indent to the
current previous-indent accumulator. (The content-headed streams keep the
set-up `DiscardEmptySpace` of both operations from consuming anything, so the
transferred bookkeeping is visible unchanged in the result.) -/
theorem include_stack_continuity :
    (∀ (s s₁ : ReaderState) (v : List Char) (c : Char) (cs : List Char),
      readPropValue s = .ok (v, s₁) →
      s₁.files.lookup (String.mk v) = some (c :: cs) → isContentChar c = true →
      startIncludeFile s = .ok (true,
        { s₁ with
          streamStack :=
            (⟨s₁.stream, s.filePath, s.currentLine, s.previousIndent⟩ : StreamInfo) ::
              s₁.streamStack
          stream := c :: cs
          filePath := String.mk v
          currentLine := 1
          previousIndent := 0 })) ∧
    (∀ (s : ReaderState) (f : StreamInfo) (fs : List StreamInfo) (c : Char) (cs : List Char),
      s.streamStack = f :: fs → f.stream = c :: cs → isContentChar c = true →
      endIncludeFile s = .ok (true,
        { s with
          stream := c :: cs
          filePath := f.filePath
          currentLine := f.currentLine
          previousIndent := s.previousIndent + f.previousIndent
          streamStack := fs })) := by
  constructor
  · intro s s₁ v c cs hval hopen hc
    rw [startIncludeFile.eq_def, hval]
    simp only []
    rw [hopen]
    simp only []
    rw [discardEmptySpace_content hc rfl]
  · intro s f fs c cs hstack hf hc
    rw [endIncludeFile, hstack]
    simp only []
    rw [hf]
    rw [discardEmptySpace_content hc rfl]

/-- Witness for C4 on a concrete include start and include end. -/
theorem include_stack_continuity_witness :
    startIncludeFile incStart = .ok (true,
      { incMid with
        streamStack :=
          (⟨incMid.stream, incStart.filePath, incStart.currentLine,
            incStart.previousIndent⟩ : StreamInfo) :: []
        stream := 'B' :: '=' :: '2' :: []
        filePath := "Other.ini"
        currentLine := 1
        previousIndent := 0 }) ∧
    endIncludeFile incPopIn = .ok (true,
      { incPopIn with
        stream := 'N' :: '=' :: '2' :: []
        filePath := "Parent.rte/Index.ini"
        currentLine := 7
        previousIndent := 3
        streamStack := [] }) := by
  have hval : readPropValue incStart = .ok ("Other.ini".data, incMid) := by
    rw [readPropValue.eq_def, readLine.eq_def, discardEmptySpace_content (c := 'O') (by decide) rfl]
    rfl
  constructor
  · rw [include_stack_continuity.1 incStart incMid "Other.ini".data 'B' ('=' :: '2' :: [])
      hval rfl (by decide)]
    rfl
  · rw [include_stack_continuity.2 incPopIn
      ⟨'N' :: '=' :: '2' :: [], "Parent.rte/Index.ini", 7, 2⟩ [] 'N' ('=' :: '2' :: [])
      rfl rfl (by decide)]
    rfl

/-- A plain character halts the skip loop. -/
theorem isPlainChar_content {c : Char} (h : isPlainChar c = true) : isContentChar c = true := by
  simp only [isPlainChar, Bool.and_eq_true, bne_iff_ne] at h
  simp only [isContentChar, Bool.and_eq_true, bne_iff_ne]
  exact ⟨h.1.1, h.2⟩

/-- A plain character is accumulated by the name loop. -/
theorem isPlainChar_nameOK {c : Char} (h : isPlainChar c = true) : nameOK c = true := by
  simp only [isPlainChar, Bool.and_eq_true, bne_iff_ne] at h
  simp only [nameOK, Bool.and_eq_true, bne_iff_ne]
  exact ⟨⟨⟨h.1.2, h.1.1.1.1.2⟩, h.1.1.1.2⟩, h.1.1.1.1.1.2⟩

/-- A plain character is not a space. -/
theorem isPlainChar_ne_space {c : Char} (h : isPlainChar c = true) : ¬ c = ' ' := by
  simp only [isPlainChar, Bool.and_eq_true, bne_iff_ne] at h
  exact h.1.1.1.1.1.1

/-- A plain character is not the key-value separator. -/
theorem isPlainChar_ne_sep {c : Char} (h : isPlainChar c = true) : ¬ c = '=' := by
  simp only [isPlainChar, Bool.and_eq_true, bne_iff_ne] at h
  exact h.1.2

/-- `find_first_of` misses on a line without a `=`. -/
theorem afterEq_none (v : List Char) (h : ∀ x ∈ v, ¬ x = '=') : afterEq v = none := by
  induction v with
  | nil => rfl
  | cons x v ih =>
    rw [afterEq, if_neg (h x (by simp))]
    exact ih (fun y hy => h y (by simp [hy]))

/-- `dropWhile` is the identity when no element satisfies the predicate. -/
theorem dropWhile_of_forall_neg (p : Char → Bool) (l : List Char)
    (h : ∀ x ∈ l, p x = false) : l.dropWhile p = l := by
  cases l with
  | nil => rfl
  | cons a l => rw [List.dropWhile_cons, h a (by simp)]; simp

/-- `TrimString` leaves a string without spaces untouched. -/
theorem trimString_no_space (v : List Char) (h : ∀ x ∈ v, ¬ x = ' ') : trimString v = v := by
  have h1 : v.dropWhile (fun c => decide (c = ' ')) = v :=
    dropWhile_of_forall_neg _ _ (fun x hx => by simp [h x hx])
  have h2 : v.reverse.dropWhile (fun c => decide (c = ' ')) = v.reverse :=
    dropWhile_of_forall_neg _ _ (fun x hx => by simp [h x (List.mem_reverse.mp hx)])
  rw [trimString, h1, h2, List.reverse_reverse]

/-- The line loop gathers a run of plain characters and stops at the line
terminator, leaving it in the stream. -/
theorem readLineLoop_plain (q : List Char) :
    ∀ (acc : List Char) (t : Char) (rest : List Char), (∀ x ∈ q, isPlainChar x = true) →
      (t = '\n' ∨ t = '\r' ∨ t = '\t') →
      readLineLoop acc (q ++ t :: rest) = (acc ++ q, t :: rest) := by
  induction q with
  | nil =>
    intro acc t rest hq ht
    rw [List.nil_append, readLineLoop, if_pos ht]
    simp
  | cons x q ih =>
    intro acc t rest hq ht
    have hx := hq x (by simp)
    simp only [isPlainChar, Bool.and_eq_true, bne_iff_ne] at hx
    obtain ⟨⟨⟨⟨⟨⟨h1, h2⟩, h3⟩, h4⟩, h5⟩, h6⟩, h7⟩ := hx
    rw [List.cons_append, readLineLoop, if_neg (by simp [h3, h4, h2]), if_neg (by simp [h5])]
    rw [ih (acc ++ [x]) t rest (fun y hy => hq y (by simp [hy])) ht]
    simp

/-- `ReadPropValue` on a stream holding a plain, `=` free value before the
line break: the value comes back verbatim and the terminator stays in the
stream. -/
theorem readPropValue_plain {s : ReaderState} {c0 : Char} {v' rest : List Char}
    (hvok : ∀ x ∈ c0 :: v', isPlainChar x = true)
    (hs : s.stream = (c0 :: v') ++ '\n' :: rest) :
    readPropValue s = .ok (c0 :: v', { s with stream := '\n' :: rest }) := by
  rw [readPropValue.eq_def, readLine.eq_def,
    discardEmptySpace_content (isPlainChar_content (hvok c0 (by simp))) (by rw [hs]; rfl)]
  simp only []
  rw [hs, readLineLoop_plain (c0 :: v') [] '\n' rest hvok (by simp)]
  simp only [List.nil_append]
  rw [afterEq_none (c0 :: v') (fun x hx => isPlainChar_ne_sep (hvok x hx))]
  simp only []
  rw [trimString_no_space (c0 :: v') (fun x hx => isPlainChar_ne_space (hvok x hx))]

/-- Reading one plain property name sitting at the head of the stream. -/
theorem readPropName_one_plain (w : ReaderState) (p0 : Char) (p' restAfter : List Char)
    (hw : w.stream = (p0 :: p') ++ '=' :: restAfter)
    (hpok : ∀ x ∈ p0 :: p', isPlainChar x = true)
    (hpname : String.mk (p0 :: p') ≠ "IncludeFile") :
    readPropName 1 w = .ok (some (String.mk (p0 :: p'), { w with stream := restAfter })) := by
  rw [show (1 : Nat) = 0 + 1 from rfl, readPropName,
    discardEmptySpace_content (isPlainChar_content (hpok p0 (by simp))) (by rw [hw]; rfl)]
  simp only []
  rw [namePhase.eq_def, hw,
    namePhaseCore_found (p0 :: p') [] restAfter (fun x hx => isPlainChar_nameOK (hpok x hx))]
  simp only [List.nil_append]
  rw [trimString_no_space (p0 :: p') (fun x hx => isPlainChar_ne_space (hpok x hx)),
    if_neg hpname]

/-- C2: whenever an `IncludeFile` property names a file that cannot be opened,
reading the next property name does not abort the load: the open failure is
reported non-fatally (the result is `.ok`, never `.error`), the parent frame
is restored — same path, same include stack, the parent stream resuming right
after the include line — and the call returns the parent file's own next
property name instead. -/
theorem includeFile_open_failure_recovers (s : ReaderState) (c0 : Char) (v' : List Char)
    (p0 : Char) (p' : List Char) (restAfter : List Char)
    (hs : s.stream =
      "IncludeFile".data ++ '=' :: ((c0 :: v') ++ '\n' :: ((p0 :: p') ++ '=' :: restAfter)))
    (hvok : ∀ x ∈ c0 :: v', isPlainChar x = true)
    (hpok : ∀ x ∈ p0 :: p', isPlainChar x = true)
    (hpname : String.mk (p0 :: p') ≠ "IncludeFile")
    (hskip : s.skipIncludes = false)
    (hmiss : s.files.lookup (String.mk (c0 :: v')) = none) :
    readPropName 2 s = .ok (some (String.mk (p0 :: p'),
      { s with
        stream := restAfter
        currentLine := s.currentLine + 1
        previousIndent := 0
        indentDifference := -s.previousIndent })) := by
  rw [show (2 : Nat) = 1 + 1 from rfl, readPropName,
    discardEmptySpace_content (c := 'I') (by decide) (by rw [hs]; rfl)]
  simp only []
  rw [namePhase.eq_def, hs,
    namePhaseCore_found ("IncludeFile".data) []
      ((c0 :: v') ++ '\n' :: ((p0 :: p') ++ '=' :: restAfter)) (by decide)]
  simp only [List.nil_append]
  rw [if_pos (by decide)]
  rw [if_neg (by simp [hskip])]
  rw [startIncludeFile.eq_def,
    readPropValue_plain hvok rfl]
  simp only []
  rw [hmiss]
  simp only []
  rw [@discardEmptySpace_ws { s with stream := '\n' :: ((p0 :: p') ++ '=' :: restAfter) }
    ('\n' :: []) p0 (p' ++ '=' :: restAfter) (by decide)
    (isPlainChar_content (hpok p0 (by simp))) rfl]
  simp only []
  simp only [finishDiscard]
  rw [if_pos (show ateAny ('\n' :: []) = true from by decide)]
  norm_num [indentAfter, nlCount]
  rw [readPropName_one_plain _ p0 p' restAfter (by rfl) hpok hpname]
  simp

/-- Witness for C2: `IncludeFile = Missing.ini` with no such file on disk,
followed by `Next=5` in the parent; the reader recovers and hands back
`Next`. -/
theorem includeFile_open_failure_recovers_witness :
    readPropName 2 failStart = .ok (some ("Next",
      { failStart with
        stream := '5' :: []
        currentLine := 8
        previousIndent := 0
        indentDifference := -1 })) := by
  rw [includeFile_open_failure_recovers failStart 'M' ("issing.ini".data) 'N' ("ext".data)
    ('5' :: []) (by decide) (by decide) (by decide) (by decide) rfl rfl]
  rfl

/-- C3: duplicate-handling of `DataModule::AddEntityPreset` (modelled from the
spec, see `addEntityPreset`): with an entry of the same exact class and preset
name already present and the overwrite flag off, the call returns "not added"
and leaves the store completely unchanged — in particular a second identical
insertion after a fresh one is a no-op with the store (hence its size)
unchanged; and with an entry of the same preset name under a different exact
class present, the call returns "not added" and adds nothing whatever the
overwrite flag. -/
theorem addEntityPreset_duplicate_rules (store : List (String × String))
    (exactClass presetName : String) :
    ((exactClass, presetName) ∈ store →
      addEntityPreset store exactClass presetName false = (false, store)) ∧
    (∀ overwriteSame : Bool,
      (∃ other : String, (other, presetName) ∈ store ∧ other ≠ exactClass) →
      addEntityPreset store exactClass presetName overwriteSame = (false, store)) ∧
    ((∀ e ∈ store, e.2 ≠ presetName) →
      addEntityPreset (addEntityPreset store exactClass presetName false).2
          exactClass presetName false =
        (false, (addEntityPreset store exactClass presetName false).2)) := by
  refine ⟨?_, ?_, ?_⟩
  · intro hmem
    rw [addEntityPreset]
    by_cases h : store.any (fun e => e.2 == presetName && e.1 != exactClass) = true
    · rw [if_pos h]
    · rw [if_neg h, if_pos (show store.contains (exactClass, presetName) = true by
        simpa [List.contains, List.elem_iff] using hmem)]
      rfl
  · intro ow hex
    obtain ⟨other, hmem, hne⟩ := hex
    rw [addEntityPreset, if_pos (List.any_eq_true.mpr
      ⟨(other, presetName), hmem, by simp [hne]⟩)]
  · intro hnone
    have h1 : store.any (fun e => e.2 == presetName && e.1 != exactClass) = false := by
      rw [List.any_eq_false]
      intro x hx
      simp [hnone x hx]
    have hnm : (exactClass, presetName) ∉ store := fun hmem => hnone _ hmem rfl
    have hfirst : addEntityPreset store exactClass presetName false =
        (true, store ++ ((exactClass, presetName) :: [])) := by
      rw [addEntityPreset, if_neg (by simp [h1]), if_neg (by simpa using hnm)]
    rw [hfirst]
    simp only []
    rw [addEntityPreset,
      if_neg (by
        simp only [List.any_append, h1, Bool.false_or, Bool.not_eq_true]
        simp),
      if_pos (by simp)]
    rfl

/-- Witness for C3: a same-class duplicate is refused without change, and a
same-name cross-class insertion is refused even with the overwrite flag. -/
theorem addEntityPreset_duplicate_rules_witness :
    addEntityPreset (("Actor", "Soldier") :: []) "Actor" "Soldier" false =
      (false, ("Actor", "Soldier") :: []) ∧
    addEntityPreset (("Actor", "Soldier") :: []) "AHuman" "Soldier" true =
      (false, ("Actor", "Soldier") :: []) :=
  ⟨(addEntityPreset_duplicate_rules (("Actor", "Soldier") :: []) "Actor" "Soldier").1
      (by simp),
    (addEntityPreset_duplicate_rules (("Actor", "Soldier") :: []) "AHuman" "Soldier").2.1
      true ⟨"Actor", by simp, by decide⟩⟩

/-- Everything `std::list::unique` keeps was in the list. -/
theorem listUnique_subset : ∀ (l : List String) (a : String), a ∈ listUnique l → a ∈ l := by
  intro l
  induction l using listUnique.induct with
  | case1 => intro a ha; simp [listUnique] at ha
  | case2 b => intro a ha; simpa [listUnique] using ha
  | case3 b rest ih =>
    intro a ha
    rw [listUnique, if_pos rfl] at ha
    have hmem := ih a ha
    rcases List.mem_cons.mp hmem with h | h
    · simp [h]
    · simp [h]
  | case4 a b rest hne ih =>
    intro x hx
    rw [listUnique, if_neg hne] at hx
    rcases List.mem_cons.mp hx with h | h
    · simp [h]
    · have hmem := ih x h
      rcases List.mem_cons.mp hmem with h2 | h2
      · simp [h2]
      · simp [h2]

/-- `std::list::unique` never loses a value entirely. -/
theorem listUnique_mem : ∀ (l : List String) (a : String), a ∈ l → a ∈ listUnique l := by
  intro l
  induction l using listUnique.induct with
  | case1 => intro a ha; simp at ha
  | case2 b => intro a ha; simpa [listUnique] using ha
  | case3 b rest ih =>
    intro a ha
    rw [listUnique, if_pos rfl]
    rcases List.mem_cons.mp ha with h | h
    · exact ih a (by simp [h])
    · exact ih a h
  | case4 a b rest hne ih =>
    intro x hx
    rw [listUnique, if_neg hne]
    rcases List.mem_cons.mp hx with h | h
    · simp [h]
    · exact List.mem_cons.mpr (Or.inr (ih x h))

/-- On a `≤` sorted list, `std::list::unique` yields a strictly sorted list:
sorted with no duplicates. -/
theorem listUnique_sorted : ∀ (l : List String), l.Sorted (· ≤ ·) →
    (listUnique l).Sorted (· < ·) := by
  intro l
  induction l using listUnique.induct with
  | case1 => intro _; simp [listUnique]
  | case2 b => intro _; simp [listUnique]
  | case3 b rest ih =>
    intro hsorted
    rw [listUnique, if_pos rfl]
    exact ih (List.sorted_cons.mp hsorted).2
  | case4 a b rest hne ih =>
    intro hsorted
    rw [listUnique, if_neg hne]
    rw [List.sorted_cons] at hsorted
    have hab : a < b := lt_of_le_of_ne (hsorted.1 b (by simp)) hne
    have hrec := ih hsorted.2
    rw [List.sorted_cons]
    refine ⟨fun x hx => ?_, hrec⟩
    have hxmem := listUnique_subset _ x hx
    rcases List.mem_cons.mp hxmem with h | h
    · subst h; exact hab
    · exact lt_of_lt_of_le hab ((List.sorted_cons.mp hsorted.2).1 x h)

/-- C8: after `DataModule::RegisterGroup` the group register contains the new
tag, is sorted, and holds no duplicates — for any incoming state; and on a
state already satisfying that invariant (strictly sorted), registering a tag
that is already present returns the register unchanged, so the invariant is
preserved and re-registration is the identity. -/
theorem registerGroup_sorted_dedup (reg : List String) (tag : String) :
    tag ∈ registerGroup reg tag ∧
    (registerGroup reg tag).Sorted (· < ·) ∧
    (registerGroup reg tag).Nodup ∧
    (List.Sorted (· < ·) reg → tag ∈ reg → registerGroup reg tag = reg) := by
  have htrans : ∀ a b c : String, decide (a ≤ b) = true → decide (b ≤ c) = true →
      decide (a ≤ c) = true := by
    intro a b c hab hbc
    simp only [decide_eq_true_eq] at *
    exact le_trans hab hbc
  have htotal : ∀ a b : String, (decide (a ≤ b) || decide (b ≤ a)) = true := by
    intro a b
    simpa using le_total a b
  have hsortedMS : ((reg ++ (tag :: [])).mergeSort (fun a b => decide (a ≤ b))).Sorted
      (· ≤ ·) := by
    have := List.sorted_mergeSort htrans htotal (reg ++ (tag :: []))
    exact this.imp (fun h => of_decide_eq_true h)
  have hmemMS : ∀ x : String, x ∈ (reg ++ (tag :: [])).mergeSort (fun a b => decide (a ≤ b)) ↔
      x ∈ reg ++ (tag :: []) := fun x => (List.mergeSort_perm _ _).mem_iff
  have hsortedLU : (registerGroup reg tag).Sorted (· < ·) :=
    listUnique_sorted _ hsortedMS
  have hmemLU : ∀ x : String, x ∈ registerGroup reg tag ↔ x ∈ reg ++ (tag :: []) := by
    intro x
    constructor
    · intro hx
      exact (hmemMS x).mp (listUnique_subset _ x hx)
    · intro hx
      exact listUnique_mem _ x ((hmemMS x).mpr hx)
  refine ⟨(hmemLU tag).mpr (by simp), hsortedLU,
    hsortedLU.imp (fun h => ne_of_lt h), ?_⟩
  intro hsorted hmem
  haveI : IsAntisymm String (· < ·) := ⟨fun a b h h' => absurd h' (lt_asymm h)⟩
  have hnodupL : (registerGroup reg tag).Nodup := hsortedLU.imp (fun h => ne_of_lt h)
  have hnodupR : reg.Nodup := hsorted.imp (fun h => ne_of_lt h)
  have hiff : ∀ x : String, x ∈ registerGroup reg tag ↔ x ∈ reg := by
    intro x
    rw [hmemLU x]
    simp only [List.mem_append, List.mem_cons, List.not_mem_nil, or_false]
    constructor
    · intro h
      rcases h with h | h
      · exact h
      · exact h ▸ hmem
    · exact Or.inl
  have hperm : (registerGroup reg tag).Perm reg :=
    List.perm_of_nodup_nodup_toFinset_eq hnodupL hnodupR
      (by ext x; simp [List.mem_toFinset, hiff x])
  exact List.eq_of_perm_of_sorted hperm hsortedLU hsorted

/-- Witness for C8: registering an already-present tag over a sorted register
changes nothing. -/
theorem registerGroup_sorted_dedup_witness :
    registerGroup ("Bunkers" :: "Crafts" :: []) "Bunkers" = "Bunkers" :: "Crafts" :: [] :=
  (registerGroup_sorted_dedup ("Bunkers" :: "Crafts" :: []) "Bunkers").2.2.2
    (by
      rw [List.sorted_cons]
      refine ⟨fun b hb => ?_, by simp⟩
      have : b = "Crafts" := by simpa using hb
      subst this
      rw [String.lt_iff_toList_lt]
      decide)
    (by simp)

/-- C9: the division-assignment operators of `Matrix` are guarded against a
zero divisor: dividing by `0.0f`, or by a `Matrix` whose `m_Rotation` is zero,
performs no division and returns the left operand entirely unchanged —
rotation, flip flags, element cache and the elements-updated flag all keep
their prior values — and the division branch runs only for a nonzero
divisor. -/
theorem matrix_div_zero_guard (m lhs rhs : Matrix) (q : ℚ) :
    matrixDivAssignFloat m 0 = m ∧
    (rhs.rotation = 0 → matrixDivAssignMatrix lhs rhs = lhs) ∧
    (q ≠ 0 → matrixDivAssignFloat m q =
      { m with rotation := m.rotation / q, elementsUpdated := false }) := by
  refine ⟨?_, ?_, ?_⟩
  · rw [matrixDivAssignFloat, if_neg (by simp)]
  · intro h
    rw [matrixDivAssignMatrix, if_neg (by simp [h])]
  · intro h
    rw [matrixDivAssignFloat, if_pos h]

/-- Witness for C9 on a concrete matrix. -/
theorem matrix_div_zero_guard_witness :
    matrixDivAssignFloat ⟨3, true, false, ((1, 0), (0, 1)), true⟩ 0 =
      ⟨3, true, false, ((1, 0), (0, 1)), true⟩ ∧
    matrixDivAssignMatrix ⟨3, true, false, ((1, 0), (0, 1)), true⟩
        ⟨0, false, false, ((1, 0), (0, 1)), false⟩ =
      ⟨3, true, false, ((1, 0), (0, 1)), true⟩ ∧
    matrixDivAssignFloat ⟨3, true, false, ((1, 0), (0, 1)), true⟩ 2 =
      ⟨3 / 2, true, false, ((1, 0), (0, 1)), false⟩ :=
  ⟨(matrix_div_zero_guard ⟨3, true, false, ((1, 0), (0, 1)), true⟩
      ⟨3, true, false, ((1, 0), (0, 1)), true⟩
      ⟨0, false, false, ((1, 0), (0, 1)), false⟩ 2).1,
    (matrix_div_zero_guard ⟨3, true, false, ((1, 0), (0, 1)), true⟩
      ⟨3, true, false, ((1, 0), (0, 1)), true⟩
      ⟨0, false, false, ((1, 0), (0, 1)), false⟩ 2).2.1 rfl,
    (matrix_div_zero_guard ⟨3, true, false, ((1, 0), (0, 1)), true⟩
      ⟨3, true, false, ((1, 0), (0, 1)), true⟩
      ⟨0, false, false, ((1, 0), (0, 1)), false⟩ 2).2.2 (by norm_num)⟩

/-- C10: `DataModule::GetMaterialMapping` indexes the fixed 256-entry mapping
array with no bounds check, so in the total embedding the lookup is `some`
exactly under the precondition `0 ≤ materialID < 256` (the array size
`c_PaletteEntriesNumber`), and under that precondition it returns the byte
stored in that slot. -/
theorem getMaterialMapping_bounds (materialMappings : List Nat)
    (hlen : materialMappings.length = c_PaletteEntriesNumber) (materialID : Int) :
    ((getMaterialMapping materialMappings materialID).isSome ↔
      0 ≤ materialID ∧ materialID < 256) ∧
    (0 ≤ materialID →
      getMaterialMapping materialMappings materialID =
        materialMappings.get? materialID.toNat) := by
  constructor
  · rw [getMaterialMapping]
    by_cases h : 0 ≤ materialID
    · rw [if_pos h]
      simp only [Option.isSome_iff_ne_none, ne_eq, List.get?_eq_none, not_le, hlen,
        c_PaletteEntriesNumber]
      omega
    · rw [if_neg h]
      simp [h]
  · intro h
    rw [getMaterialMapping, if_pos h]

/-- Witness for C10 on the all-zero mapping table. -/
theorem getMaterialMapping_bounds_witness :
    ((getMaterialMapping (List.replicate 256 0) 5).isSome ↔ 0 ≤ (5 : Int) ∧ (5 : Int) < 256) ∧
    (getMaterialMapping (List.replicate 256 0) 5 = (List.replicate 256 0).get? (5 : Int).toNat) :=
  ⟨(getMaterialMapping_bounds (List.replicate 256 0)
      (by rw [List.length_replicate]; rfl) 5).1,
    (getMaterialMapping_bounds (List.replicate 256 0)
      (by rw [List.length_replicate]; rfl) 5).2 (by decide)⟩

end RTE

